import Mathlib

set_option maxHeartbeats 1000000
set_option maxRecDepth 4000

/-!
Shallow embedding of `terraform_variable_drift/__main__.py`.

The program scans a directory tree for Terraform configuration files,
extracts declared variable names (structured hcl2 parse with a regex
fallback), referenced names (`var.<ident>` regex), and tfvars override
keys, subtracts an ignore list and reports three sorted drift
categories, mapping them to a process exit code.

Filesystem and parser-library effects are modelled as inputs: each file
is a path plus its raw text and/or the outcome of the external parser
(`Except` for a Python exception).  Machine strings are `String`/
`List Char`; Python sets are `Finset String`.
-/

namespace TfDrift

/-- Character class `[A-Za-z0-9_]` used by both regexes (ASCII only,
matching Python `re` on these patterns). -/
def isIdent (c : Char) : Bool := c.isAlphanum || c == '_'

/-- Character class `\s` of Python `re` (ASCII whitespace). -/
def isSpace (c : Char) : Bool :=
  c == ' ' || c == '\t' || c == '\n' || c == '\r' || c == '\x0b' || c == '\x0c'

/-- Boolean list-prefix test (Python `str.startswith` on char lists). -/
def isPrefixOfB : List Char → List Char → Bool
  | [], _ => true
  | _ :: _, [] => false
  | a :: as, b :: bs => a == b && isPrefixOfB as bs

/-- Boolean list-suffix test (Python `str.endswith` on char lists). -/
def isSuffixB (needle hay : List Char) : Bool :=
  isPrefixOfB needle.reverse hay.reverse

/-- Python substring test `needle in hay` on char lists. -/
def containsSub : List Char → List Char → Bool
  | [], needle => isPrefixOfB needle []
  | c :: t, needle => isPrefixOfB needle (c :: t) || containsSub t needle

/-- Longest prefix satisfying `p` paired with the remainder (the shape
in which both regexes consume a greedy character-class run). -/
def spanB (p : Char → Bool) : List Char → List Char × List Char
  | [] => ([], [])
  | c :: cs =>
    if p c then (c :: (spanB p cs).1, (spanB p cs).2)
    else ([], c :: cs)

/-- `IGNORE_DIR_PATTERNS` from the source: denylisted path fragments. -/
def IGNORE_DIR_PATTERNS : List String :=
  ["/.terraform/", "/.git/", "/vendor/", "/third_party/"]

/-- `IGNORE_FILE_PATTERNS` from the source (declared, never consulted). -/
def IGNORE_FILE_PATTERNS : List String := [".terraform"]

/-- `IGNORE_FILE_EXTS` from the source: recognized extensions. -/
def IGNORE_FILE_EXTS : List String := [".tf", ".tfvars", ".json"]

/-- `IGNORELIST_FILE` from the source. -/
def IGNORELIST_FILE : String := ".tfdriftignore"

/-- `path.replace("\\", "/")`: separator normalization in `should_skip`. -/
def normalizePath (path : String) : String :=
  String.mk (path.data.map fun c => if c == '\\' then '/' else c)

/-- Extension test `p.endswith(IGNORE_FILE_EXTS)` on the normalized path. -/
def extRecognized (p : String) : Bool :=
  IGNORE_FILE_EXTS.any fun e => isSuffixB e.data p.data

/-- Denylist test `any(s in p for s in IGNORE_DIR_PATTERNS)`. -/
def hitsIgnoredDir (p : String) : Bool :=
  IGNORE_DIR_PATTERNS.any fun s => containsSub p.data s.data

/-- `should_skip` from the source: normalize separators, then skip on
unrecognized extension, then skip on denylisted path fragment. -/
def should_skip (path : String) : Bool :=
  let p := normalizePath path
  if !(extRecognized p) then true
  else if hitsIgnoredDir p then true
  else false

/-- Scanner loop for
`re.findall(r'(?<![A-Za-z0-9_])var\.([A-Za-z0-9_]+)', txt)`:
left-to-right non-overlapping matches; `prev` records whether the
character before the current position is in `[A-Za-z0-9_]` (the
negative lookbehind; `false` at the start of text).  On a failed match
attempt the engine re-tries one character later.  The `fuel` argument
only makes the recursion structural: every step drops at least one
character and exactly one unit of fuel, so starting the loop with the
text's length (as `scanVarRefs` does) never exhausts it. -/
def scanVarRefsGo : Nat → Bool → List Char → List (List Char)
  | 0, _, _ => []
  | _ + 1, _, [] => []
  | fuel + 1, true, c :: rest => scanVarRefsGo fuel (isIdent c) rest
  | fuel + 1, false, 'v' :: 'a' :: 'r' :: '.' :: rest =>
    match spanB isIdent rest with
    | ([], _) =>
      -- `var.` not followed by an identifier character: no match here;
      -- retry from the next position, whose lookbehind sees `v` (ident).
      scanVarRefsGo fuel true ('a' :: 'r' :: '.' :: rest)
    | (nm1 :: nm, r) => (nm1 :: nm) :: scanVarRefsGo fuel true r
  | fuel + 1, false, c :: rest => scanVarRefsGo fuel (isIdent c) rest

/-- The `var.<ident>` scan of a whole text. -/
def scanVarRefs (prev : Bool) (l : List Char) : List (List Char) :=
  scanVarRefsGo l.length prev l

/-- `parse_used_vars_from_tf` from the source: the set of identifiers
captured by the `var.<ident>` regex over the raw file text. -/
def parse_used_vars_from_tf (txt : String) : Finset String :=
  ((scanVarRefs false txt.data).map fun n => String.mk n).toFinset

/-- One attempted match of `\s+"([A-Za-z0-9_]+)"\s*\x7b` (the part of
the declaration-header pattern after the literal `variable`), applied
to the text right after that literal; returns the captured name and
the remainder after the opening brace, or `none` if the attempt fails
at this position. -/
def tryVarDecl (rest : List Char) : Option (List Char × List Char) :=
  match spanB isSpace rest with
  | ([], _) => none
  | (_ :: _, r2) =>
    match r2 with
    | '"' :: r3 =>
      match spanB isIdent r3 with
      | ([], _) => none
      | (nm1 :: nm, r4) =>
        match r4 with
        | '"' :: r5 =>
          match spanB isSpace r5 with
          | (_, '\x7b' :: r7) => some (nm1 :: nm, r7)
          | (_, _) => none
        | _ => none
    | _ => none

/-- Scanner loop for
`re.findall(r'variable\s+"([A-Za-z0-9_]+)"\s*\x7b', txt)`:
left-to-right non-overlapping matches of the declaration-header
pattern; on a failed match attempt the engine re-tries one character
later, which here means continuing from the character after `v`.  The
`fuel` argument only makes the recursion structural: every step drops
at least one character and exactly one unit of fuel, so starting with
the text's length (as `scanVarDecls` does) never exhausts it. -/
def scanVarDeclsGo : Nat → List Char → List (List Char)
  | 0, _ => []
  | _ + 1, [] => []
  | fuel + 1, 'v' :: 'a' :: 'r' :: 'i' :: 'a' :: 'b' :: 'l' :: 'e' :: rest =>
    match tryVarDecl rest with
    | some (n, r) => n :: scanVarDeclsGo fuel r
    | none =>
      scanVarDeclsGo fuel ('a' :: 'r' :: 'i' :: 'a' :: 'b' :: 'l' :: 'e' :: rest)
  | fuel + 1, _ :: rest => scanVarDeclsGo fuel rest

/-- The declaration-header scan of a whole text. -/
def scanVarDecls (l : List Char) : List (List Char) :=
  scanVarDeclsGo l.length l

/-- The regex-fallback declared-name set:
`set(re.findall(r'variable\s+"([A-Za-z0-9_]+)"\s*\x7b', txt))`. -/
def fallbackDeclared (txt : String) : Finset String :=
  ((scanVarDecls txt.data).map fun n => String.mk n).toFinset

/-- A Python value as produced by `hcl2.load` or `json.load`: `None`,
`bool`, a number, `str`, `list`, or `dict` (keys are strings, in
insertion order). -/
inductive PyData where
  | null : PyData
  | bool : Bool → PyData
  | num : Int → PyData
  | str : String → PyData
  | list : List PyData → PyData
  | dict : List (String × PyData) → PyData

/-- Python `key in blk`: key lookup for a dict, element equality for a
list, substring test for a str; `TypeError` for anything else. -/
def pyContainsKey (blk : PyData) (key : String) : Except String Bool :=
  match blk with
  | .dict kvs => .ok (kvs.any fun kv => kv.1 == key)
  | .list xs =>
    .ok (xs.any fun x => match x with | .str s => s == key | _ => false)
  | .str s => .ok (containsSub s.data key.data)
  | _ => .error "TypeError: argument is not iterable"

/-- Python `blk[key]` for a string key: dict lookup; `TypeError` on a
list or str (string index), `TypeError` otherwise too. -/
def pySubscript (blk : PyData) (key : String) : Except String PyData :=
  match blk with
  | .dict kvs =>
    match kvs.find? fun kv => kv.1 == key with
    | some kv => .ok kv.2
    | none => .error "KeyError"
  | _ => .error "TypeError: indices must be integers"

/-- Python `for entry in v`: a list yields its elements, a dict its
keys, a str its characters; `TypeError` otherwise. -/
def pyIter (v : PyData) : Except String (List PyData) :=
  match v with
  | .list xs => .ok xs
  | .dict kvs => .ok (kvs.map fun kv => PyData.str kv.1)
  | .str s => .ok (s.data.map fun c => PyData.str (String.mk [c]))
  | _ => .error "TypeError: argument is not iterable"

/-- `entry.keys()` guarded by `isinstance(entry, dict)`: the keys of a
dict entry, nothing for any other entry. -/
def entryKeys (entry : PyData) : Finset String :=
  match entry with
  | .dict kvs => (kvs.map Prod.fst).toFinset
  | _ => ∅

/-- The body of the `for blk in blocks` loop of
`parse_declared_vars_from_tf`: `if "variable" in blk: for entry in
blk["variable"]: ...`, threading the `declared` accumulator. -/
def processBlock (declared : Finset String) (blk : PyData) :
    Except String (Finset String) :=
  match pyContainsKey blk "variable" with
  | .error e => .error e
  | .ok false => .ok declared
  | .ok true =>
    match pySubscript blk "variable" with
    | .error e => .error e
    | .ok v =>
      match pyIter v with
      | .error e => .error e
      | .ok entries =>
        .ok (entries.foldl (fun acc entry => acc ∪ entryKeys entry) declared)

/-- The `for blk in blocks` loop, short-circuiting on a raised
`TypeError` exactly as Python would. -/
def processBlocks : List PyData → Finset String → Except String (Finset String)
  | [], declared => .ok declared
  | blk :: blks, declared =>
    match processBlock declared blk with
    | .error e => .error e
    | .ok declared2 => processBlocks blks declared2

/-- The structured branch of `parse_declared_vars_from_tf` (lines
48-60): one block for a dict document, the elements for a list
document, no blocks otherwise; then the block loop. -/
def structuredBranch (data : PyData) : Except String (Finset String) :=
  match data with
  | .dict kvs => processBlocks [PyData.dict kvs] ∅
  | .list xs => processBlocks xs ∅
  | _ => processBlocks [] ∅

/-- `parse_declared_vars_from_tf` from the source: on an `hcl2.load`
exception, the regex fallback over the raw text; on a successful parse,
the structured branch (whose own exceptions are not caught). -/
def parse_declared_vars_from_tf (parseRes : Except String PyData)
    (txt : String) : Except String (Finset String) :=
  match parseRes with
  | .error _ => .ok (fallbackDeclared txt)
  | .ok data => structuredBranch data

/-- A parsed document that is neither a mapping nor a sequence. -/
def isScalarDoc (data : PyData) : Bool :=
  match data with
  | .dict _ => false
  | .list _ => false
  | _ => true

/-- A value that Python's `isinstance(v, list)` accepts. -/
def isListVal (v : PyData) : Bool :=
  match v with
  | .list _ => true
  | _ => false

/-- A top-level mapping whose `variable` entries (if any) are lists —
the shape `hcl2.load` actually produces for a block type. -/
def wellShapedDict (kvs : List (String × PyData)) : Bool :=
  kvs.all fun kv => !(kv.1 == "variable") || isListVal kv.2

/-- A top-level sequence whose entries are all well-shaped mappings. -/
def wellShapedDocs (docs : List PyData) : Bool :=
  docs.all fun d =>
    match d with
    | .dict kvs => wellShapedDict kvs
    | _ => false

/-- `parse_tfvars` from the source: a `.json` path takes the JSON
branch (top-level-object keys, else empty, exceptions swallowed), any
other path the hcl2 branch (top-level-dict keys, else empty, exceptions
swallowed).  The two parse outcomes are supplied as inputs. -/
def parse_tfvars (path : String) (jsonRes hclRes : Except String PyData) :
    Finset String :=
  if isSuffixB ".json".data path.data then
    match jsonRes with
    | .ok (.dict kvs) => (kvs.map Prod.fst).toFinset
    | _ => ∅
  else
    match hclRes with
    | .ok (.dict kvs) => (kvs.map Prod.fst).toFinset
    | _ => ∅

/-- Python `line.strip()` restricted to ASCII whitespace. -/
def stripLine (s : String) : String :=
  String.mk (((s.data.dropWhile isSpace).reverse.dropWhile isSpace).reverse)

/-- `load_ignorelist` from the source: `none` models an absent
`.tfdriftignore`; otherwise each line is stripped, and blank lines and
lines starting with `#` are dropped. -/
def load_ignorelist (fileLines : Option (List String)) : Finset String :=
  match fileLines with
  | Option.none => ∅
  | Option.some lines =>
    ((lines.map stripLine).filter fun l =>
      !(l.data.isEmpty) && !(isPrefixOfB ['#'] l.data)).toFinset

/-- Python `sorted(...)` applied to a set of symbols: the ascending
list of the set's elements.  Implemented with the structural
`List.insertionSort` so that concrete runs evaluate inside the
kernel; on distinct elements any correct sort produces this same
canonical list. -/
def sortedSymbols (s : Finset String) : List String :=
  Quot.liftOn s.val (fun l => List.insertionSort (· ≤ ·) l) fun _ _ h =>
    List.eq_of_perm_of_sorted
      ((List.perm_insertionSort _ _).trans
        (h.trans (List.perm_insertionSort _ _).symm))
      (List.sorted_insertionSort _ _) (List.sorted_insertionSort _ _)

/-- Decidable equality of parse outcomes, so that concrete runs can be
checked by evaluation. -/
instance {ε α : Type} [DecidableEq ε] [DecidableEq α] :
    DecidableEq (Except ε α) := fun a b =>
  match a, b with
  | .error e1, .error e2 =>
    if h : e1 = e2 then isTrue (by rw [h]) else isFalse (by simp [h])
  | .ok v1, .ok v2 =>
    if h : v1 = v2 then isTrue (by rw [h]) else isFalse (by simp [h])
  | .error _, .ok _ => isFalse (by simp)
  | .ok _, .error _ => isFalse (by simp)

/-- A discovered `*.tf` file: its path, the outcome of `hcl2.load` on
it, and its raw text. -/
structure TfFile where
  path : String
  parseRes : Except String PyData
  text : String

/-- A discovered tfvars-pattern file: its path and the outcomes of the
two parsers `parse_tfvars` may consult. -/
structure TfvarsFile where
  path : String
  jsonRes : Except String PyData
  hclRes : Except String PyData

/-- The first collection loop of `main`: over each non-skipped `.tf`
file, union the declared and used sets; an exception escaping
`parse_declared_vars_from_tf` aborts the run. -/
def collectTf : List TfFile → Finset String × Finset String →
    Except String (Finset String × Finset String)
  | [], acc => .ok acc
  | f :: fs, acc =>
    if should_skip f.path then collectTf fs acc
    else
      match parse_declared_vars_from_tf f.parseRes f.text with
      | .error e => .error e
      | .ok ds =>
        collectTf fs (acc.1 ∪ ds, acc.2 ∪ parse_used_vars_from_tf f.text)

/-- The tfvars collection loops of `main`: over each non-skipped file,
union the top-level keys (`parse_tfvars` never raises). -/
def collectTfvars : List TfvarsFile → Finset String → Finset String
  | [], keys => keys
  | g :: gs, keys =>
    if should_skip g.path then collectTfvars gs keys
    else collectTfvars gs (keys ∪ parse_tfvars g.path g.jsonRes g.hclRes)

/-- The result of one completed run of `main`: the four accumulated
sets and the three sorted drift categories, plus the return value of
`main` (0 or 1). -/
structure DriftResult where
  declared : Finset String
  used : Finset String
  tfvarsKeys : Finset String
  ignore : Finset String
  unused : List String
  missing : List String
  tfvarsExtra : List String
  exitCode : Nat
deriving DecidableEq

/-- `main` from the source: collect over the `**/*.tf` glob, then over
the `**/*.tfvars*` and `**/*.tfvars.json` globs (two lists of
discovered files), load the ignore list, and compute the three sorted
drift categories and the return value. -/
def mainRun (tfFiles : List TfFile) (tfvarsA tfvarsB : List TfvarsFile)
    (ignoreFile : Option (List String)) : Except String DriftResult :=
  match collectTf tfFiles (∅, ∅) with
  | .error e => .error e
  | .ok du =>
    let declared := du.1
    let used := du.2
    let tfvarsKeys := collectTfvars tfvarsB (collectTfvars tfvarsA ∅)
    let ignore := load_ignorelist ignoreFile
    let unused := sortedSymbols ((declared \ used) \ ignore)
    let missing := sortedSymbols ((used \ declared) \ ignore)
    let tfvarsExtra := sortedSymbols ((tfvarsKeys \ declared) \ ignore)
    let code :=
      if unused.isEmpty && missing.isEmpty && tfvarsExtra.isEmpty then 0 else 1
    .ok ⟨declared, used, tfvarsKeys, ignore, unused, missing, tfvarsExtra, code⟩

/-- The whole process: the import guard at lines 5-9 exits with status
2 before any scanning when `hcl2` is unavailable; otherwise the exit
status is `main`'s return value. -/
def programRun (hclAvailable : Bool) (tfFiles : List TfFile)
    (tfvarsA tfvarsB : List TfvarsFile) (ignoreFile : Option (List String)) :
    Except String Nat :=
  if hclAvailable then
    match mainRun tfFiles tfvarsA tfvarsB ignoreFile with
    | .error e => .error e
    | .ok r => .ok r.exitCode
  else .ok 2

/-! ## Basic facts about the scanning primitives -/

theorem spanB_append (p : Char → Bool) (l : List Char) :
    (spanB p l).1 ++ (spanB p l).2 = l := by
  induction l with
  | nil => rfl
  | cons c cs ih =>
    simp only [spanB]
    split
    · simpa using ih
    · rfl

theorem spanB_fst_all (p : Char → Bool) (l : List Char) :
    ∀ c ∈ (spanB p l).1, p c = true := by
  induction l with
  | nil => simp [spanB]
  | cons c cs ih =>
    simp only [spanB]
    split
    · intro d hd
      rcases List.mem_cons.mp hd with h | h
      · subst h; assumption
      · exact ih d h
    · simp

/-- Soundness of the `var.<ident>` scanner loop: every captured name
is a nonempty identifier-character run occurring in the text right
after `var.`, with the occurrence preceded either by the start of text
(when the lookbehind flag was clear) or by a non-identifier
character. -/
theorem scanVarRefsGo_sound (fuel : Nat) (prev : Bool) (l : List Char) :
    ∀ n ∈ scanVarRefsGo fuel prev l,
      n ≠ [] ∧ (∀ c ∈ n, isIdent c = true) ∧
      ∃ pre post, l = pre ++ ('v' :: 'a' :: 'r' :: '.' :: (n ++ post)) ∧
        ((pre = [] ∧ prev = false) ∨
          ∃ d pre2, pre = pre2 ++ [d] ∧ isIdent d = false) := by
  induction fuel, prev, l using scanVarRefsGo.induct with
  | case1 prev l =>
    intro n hn
    simp [scanVarRefsGo] at hn
  | case2 fuel prev =>
    intro n hn
    simp [scanVarRefsGo] at hn
  | case3 fuel c rest ih =>
    intro n hn
    rw [scanVarRefsGo.eq_3] at hn
    obtain ⟨hne, hid, pre, post, hdec, hbnd⟩ := ih n hn
    refine ⟨hne, hid, c :: pre, post, by simp [hdec], ?_⟩
    rcases hbnd with ⟨hpre, hprev⟩ | ⟨d, pre2, hsplit, hd⟩
    · exact Or.inr ⟨c, [], by simp [hpre], hprev⟩
    · exact Or.inr ⟨d, c :: pre2, by simp [hsplit], hd⟩
  | case4 fuel rest snd h1 ih =>
    intro n hn
    rw [scanVarRefsGo.eq_4, h1] at hn
    obtain ⟨hne, hid, pre, post, hdec, hbnd⟩ := ih n hn
    refine ⟨hne, hid, 'v' :: pre, post, by simp [hdec], ?_⟩
    rcases hbnd with ⟨hpre, hprev⟩ | ⟨d, pre2, hsplit, hd⟩
    · exact absurd hprev (by simp)
    · exact Or.inr ⟨d, 'v' :: pre2, by simp [hsplit], hd⟩
  | case5 fuel rest nm1 nm r h1 ih =>
    intro n hn
    rw [scanVarRefsGo.eq_4, h1] at hn
    have hrest : (nm1 :: nm) ++ r = rest := by
      have h2 := spanB_append isIdent rest
      rw [h1] at h2
      simpa using h2
    have hident : ∀ c ∈ nm1 :: nm, isIdent c = true := by
      have h2 := spanB_fst_all isIdent rest
      rw [h1] at h2
      simpa using h2
    rcases List.mem_cons.mp hn with hn | hn
    · subst hn
      refine ⟨by simp, hident, [], r, ?_, Or.inl ⟨rfl, rfl⟩⟩
      simp [← hrest]
    · obtain ⟨hne, hid, pre, post, hdec, hbnd⟩ := ih n hn
      rcases hbnd with ⟨hpre, hprev⟩ | ⟨d, pre2, hsplit, hd⟩
      · exact absurd hprev (by simp)
      · refine ⟨hne, hid,
          'v' :: 'a' :: 'r' :: '.' :: ((nm1 :: nm) ++ pre), post, ?_, ?_⟩
        · simp [← hrest, hdec]
        · exact Or.inr ⟨d, 'v' :: 'a' :: 'r' :: '.' :: ((nm1 :: nm) ++ pre2),
            by simp [hsplit], hd⟩
  | case6 fuel c rest hnomatch ih =>
    intro n hn
    rw [scanVarRefsGo.eq_5 fuel c rest hnomatch] at hn
    obtain ⟨hne, hid, pre, post, hdec, hbnd⟩ := ih n hn
    refine ⟨hne, hid, c :: pre, post, by simp [hdec], ?_⟩
    rcases hbnd with ⟨hpre, hprev⟩ | ⟨d, pre2, hsplit, hd⟩
    · exact Or.inr ⟨c, [], by simp [hpre], hprev⟩
    · exact Or.inr ⟨d, c :: pre2, by simp [hsplit], hd⟩

/-- Soundness transferred to the whole-text scan. -/
theorem scanVarRefs_sound (prev : Bool) (l : List Char) :
    ∀ n ∈ scanVarRefs prev l,
      n ≠ [] ∧ (∀ c ∈ n, isIdent c = true) ∧
      ∃ pre post, l = pre ++ ('v' :: 'a' :: 'r' :: '.' :: (n ++ post)) ∧
        ((pre = [] ∧ prev = false) ∨
          ∃ d pre2, pre = pre2 ++ [d] ∧ isIdent d = false) :=
  scanVarRefsGo_sound l.length prev l

/-- A successful single-position match of the declaration-header
pattern decomposes the input into mandatory whitespace, a quoted
nonempty identifier, optional whitespace, and an opening brace. -/
theorem tryVarDecl_sound (rest n r : List Char)
    (h : tryVarDecl rest = some (n, r)) :
    n ≠ [] ∧ (∀ c ∈ n, isIdent c = true) ∧
    ∃ sp sp2, rest = sp ++ '"' :: (n ++ '"' :: (sp2 ++ '\x7b' :: r)) ∧
      sp ≠ [] ∧ (∀ c ∈ sp, isSpace c = true) ∧
      (∀ c ∈ sp2, isSpace c = true) := by
  simp only [tryVarDecl] at h
  split at h
  · exact absurd h (by simp)
  · split at h
    · split at h
      · exact absurd h (by simp)
      · split at h
        · split at h
          · rename_i x2 nm1a nma r4a r5a heqA x1 nm1b nmb r4b r5b heqB x0
              fstc r7c heqC
            obtain ⟨rfl, rfl⟩ : nm1b :: nmb = n ∧ r7c = r := by simpa using h
            have a1 := spanB_append isSpace rest
            rw [heqA] at a1
            have f1 := spanB_fst_all isSpace rest
            rw [heqA] at f1
            have a2 := spanB_append isIdent r5a
            rw [heqB] at a2
            have f2 := spanB_fst_all isIdent r5a
            rw [heqB] at f2
            have a3 := spanB_append isSpace r5b
            rw [heqC] at a3
            have f3 := spanB_fst_all isSpace r5b
            rw [heqC] at f3
            simp only at a1 a2 a3 f1 f2 f3
            refine ⟨by simp, f2, nm1a :: nma, fstc, ?_, by simp, f1, f3⟩
            rw [← a1, ← a2, ← a3]
          · exact absurd h (by simp)
        · exact absurd h (by simp)
    · exact absurd h (by simp)

/-- Soundness of the declaration-header scanner loop: every captured
name is a nonempty identifier-character run occurring in the text
inside a `variable "<name>" \x7b` header. -/
theorem scanVarDeclsGo_sound (fuel : Nat) (l : List Char) :
    ∀ n ∈ scanVarDeclsGo fuel l,
      n ≠ [] ∧ (∀ c ∈ n, isIdent c = true) ∧
      ∃ pre sp sp2 post,
        l = pre ++ 'v' :: 'a' :: 'r' :: 'i' :: 'a' :: 'b' :: 'l' :: 'e' ::
          (sp ++ '"' :: (n ++ '"' :: (sp2 ++ '\x7b' :: post))) ∧
        sp ≠ [] ∧ (∀ c ∈ sp, isSpace c = true) ∧
        (∀ c ∈ sp2, isSpace c = true) := by
  induction fuel, l using scanVarDeclsGo.induct with
  | case1 l =>
    intro n hn
    simp [scanVarDeclsGo] at hn
  | case2 fuel =>
    intro n hn
    simp [scanVarDeclsGo] at hn
  | case3 fuel rest n0 r htry ih =>
    intro n hn
    rw [scanVarDeclsGo.eq_3] at hn
    split at hn
    · rename_i n0b rb heq
      rw [htry] at heq
      obtain ⟨rfl, rfl⟩ : n0 = n0b ∧ r = rb := by simpa using heq
      obtain ⟨hne0, hid0, sp, sp2, hdec0, hspne, hsp, hsp2⟩ :=
        tryVarDecl_sound rest n0 r htry
      rcases List.mem_cons.mp hn with hn | hn
      · subst hn
        exact ⟨hne0, hid0, [], sp, sp2, r, by simp [hdec0], hspne, hsp, hsp2⟩
      · obtain ⟨hne, hid, pre, sp2a, sp2b, post, hdec, hspne2, hsp2a, hsp2b⟩ :=
          ih n hn
        refine ⟨hne, hid,
          'v' :: 'a' :: 'r' :: 'i' :: 'a' :: 'b' :: 'l' :: 'e' ::
            (sp ++ '"' :: (n0 ++ '"' :: (sp2 ++ '\x7b' :: pre))),
          sp2a, sp2b, post, ?_, hspne2, hsp2a, hsp2b⟩
        simp [hdec0, hdec]
    · rename_i heq
      rw [htry] at heq
      exact absurd heq (by simp)
  | case4 fuel rest htry ih =>
    intro n hn
    rw [scanVarDeclsGo.eq_3] at hn
    split at hn
    · rename_i n0b rb heq
      rw [htry] at heq
      exact absurd heq (by simp)
    · obtain ⟨hne, hid, pre, sp, sp2, post, hdec, hspne, hsp, hsp2⟩ := ih n hn
      exact ⟨hne, hid, 'v' :: pre, sp, sp2, post, by simp [hdec], hspne,
        hsp, hsp2⟩
  | case5 fuel c rest hnv ih =>
    intro n hn
    rw [scanVarDeclsGo.eq_4 fuel c rest hnv] at hn
    obtain ⟨hne, hid, pre, sp, sp2, post, hdec, hspne, hsp, hsp2⟩ := ih n hn
    exact ⟨hne, hid, c :: pre, sp, sp2, post, by simp [hdec], hspne, hsp, hsp2⟩

/-- Soundness transferred to the whole-text scan. -/
theorem scanVarDecls_sound (l : List Char) :
    ∀ n ∈ scanVarDecls l,
      n ≠ [] ∧ (∀ c ∈ n, isIdent c = true) ∧
      ∃ pre sp sp2 post,
        l = pre ++ 'v' :: 'a' :: 'r' :: 'i' :: 'a' :: 'b' :: 'l' :: 'e' ::
          (sp ++ '"' :: (n ++ '"' :: (sp2 ++ '\x7b' :: post))) ∧
        sp ≠ [] ∧ (∀ c ∈ sp, isSpace c = true) ∧
        (∀ c ∈ sp2, isSpace c = true) :=
  scanVarDeclsGo_sound l.length l

/-! ## Facts about the collection loops and the run -/

theorem collectTf_skip (f : TfFile) (fs : List TfFile)
    (acc : Finset String × Finset String) (h : should_skip f.path = true) :
    collectTf (f :: fs) acc = collectTf fs acc := by
  simp [collectTf, h]

theorem collectTfvars_skip (g : TfvarsFile) (gs : List TfvarsFile)
    (keys : Finset String) (h : should_skip g.path = true) :
    collectTfvars (g :: gs) keys = collectTfvars gs keys := by
  simp [collectTfvars, h]

theorem collectTf_mono (fs : List TfFile) :
    ∀ (d u d2 u2 : Finset String),
      collectTf fs (d, u) = .ok (d2, u2) → d ⊆ d2 ∧ u ⊆ u2 := by
  induction fs with
  | nil =>
    intro d u d2 u2 h
    simp only [collectTf, Except.ok.injEq, Prod.mk.injEq] at h
    obtain ⟨rfl, rfl⟩ := h
    exact ⟨Finset.Subset.refl d, Finset.Subset.refl u⟩
  | cons f fs ih =>
    intro d u d2 u2 h
    simp only [collectTf] at h
    split at h
    · exact ih d u d2 u2 h
    · split at h
      · exact absurd h (by simp)
      · obtain ⟨h1, h2⟩ := ih _ _ d2 u2 h
        exact ⟨Finset.subset_union_left.trans h1,
          Finset.subset_union_left.trans h2⟩

theorem collectTf_append (fs gs : List TfFile) :
    ∀ (acc acc2 : Finset String × Finset String),
      collectTf fs acc = .ok acc2 →
      collectTf (fs ++ gs) acc = collectTf gs acc2 := by
  induction fs with
  | nil =>
    intro acc acc2 h
    simp only [collectTf, Except.ok.injEq] at h
    rw [List.nil_append, h]
  | cons f fs ih =>
    intro acc acc2 h
    simp only [collectTf, List.cons_append] at h ⊢
    split at h
    · rename_i hskip
      rw [if_pos hskip]
      exact ih acc acc2 h
    · rename_i hskip
      rw [if_neg hskip]
      split at h
      · exact absurd h (by simp)
      · exact ih _ acc2 h

theorem collectTfvars_mono (gs : List TfvarsFile) :
    ∀ keys, keys ⊆ collectTfvars gs keys := by
  induction gs with
  | nil =>
    intro keys
    simp [collectTfvars]
  | cons g gs ih =>
    intro keys
    simp only [collectTfvars]
    split
    · exact ih keys
    · exact Finset.subset_union_left.trans (ih _)

theorem collectTfvars_append (gs hs : List TfvarsFile) :
    ∀ keys, collectTfvars (gs ++ hs) keys =
      collectTfvars hs (collectTfvars gs keys) := by
  induction gs with
  | nil =>
    intro keys
    simp [collectTfvars]
  | cons g gs ih =>
    intro keys
    simp only [List.cons_append, collectTfvars]
    split
    · exact ih keys
    · exact ih _

theorem mem_sortedSymbols (s : Finset String) (a : String) :
    a ∈ sortedSymbols s ↔ a ∈ s := by
  rcases s with ⟨m, hm⟩
  induction m using Quot.inductionOn with
  | _ l =>
    show a ∈ List.insertionSort (· ≤ ·) l ↔ _
    rw [(List.perm_insertionSort _ _).mem_iff]
    rfl

theorem sortedSymbols_sorted (s : Finset String) :
    (sortedSymbols s).Sorted (· ≤ ·) := by
  rcases s with ⟨m, hm⟩
  induction m using Quot.inductionOn with
  | _ l => exact List.sorted_insertionSort _ _

theorem mainRun_spec (tf : List TfFile) (a b : List TfvarsFile)
    (ign : Option (List String)) (r : DriftResult)
    (h : mainRun tf a b ign = .ok r) :
    r.ignore = load_ignorelist ign ∧
    r.tfvarsKeys = collectTfvars b (collectTfvars a ∅) ∧
    collectTf tf (∅, ∅) = .ok (r.declared, r.used) ∧
    r.unused = sortedSymbols ((r.declared \ r.used) \ r.ignore) ∧
    r.missing = sortedSymbols ((r.used \ r.declared) \ r.ignore) ∧
    r.tfvarsExtra = sortedSymbols ((r.tfvarsKeys \ r.declared) \ r.ignore) ∧
    r.exitCode = (if r.unused.isEmpty && r.missing.isEmpty &&
      r.tfvarsExtra.isEmpty then 0 else 1) := by
  unfold mainRun at h
  cases hc : collectTf tf (∅, ∅) with
  | error e =>
    rw [hc] at h
    exact absurd h (by simp)
  | ok du =>
    rw [hc] at h
    simp only [Except.ok.injEq] at h
    subst h
    refine ⟨rfl, rfl, ?_, rfl, rfl, rfl, rfl⟩
    simp

/-! ## Facts about the structured declaration branch -/

theorem processBlock_dict_ok (acc : Finset String)
    (kvs : List (String × PyData)) (hks : wellShapedDict kvs = true) :
    ∃ s, processBlock acc (.dict kvs) = .ok s := by
  simp only [processBlock, pyContainsKey]
  cases hany : kvs.any fun kv => kv.1 == "variable" with
  | false => exact ⟨acc, rfl⟩
  | true =>
    simp only [pySubscript]
    cases hfind : kvs.find? fun kv => kv.1 == "variable" with
    | none =>
      rw [List.find?_eq_none] at hfind
      rw [List.any_eq_true] at hany
      obtain ⟨kv, hmem, hkv⟩ := hany
      exact absurd hkv (by simpa using hfind kv hmem)
    | some kv =>
      have hmem := List.mem_of_find?_eq_some hfind
      have hvar := List.find?_some hfind
      simp only at hvar
      have hlist : isListVal kv.2 = true := by
        have hall := (List.all_eq_true.mp hks) kv hmem
        simp only [hvar, Bool.not_true, Bool.false_or] at hall
        exact hall
      cases hv : kv.2 with
      | list xs =>
        exact ⟨xs.foldl (fun a entry => a ∪ entryKeys entry) acc,
          by simp [pyIter, hv]⟩
      | null => rw [hv] at hlist; exact absurd hlist (by simp [isListVal])
      | bool b => rw [hv] at hlist; exact absurd hlist (by simp [isListVal])
      | num n => rw [hv] at hlist; exact absurd hlist (by simp [isListVal])
      | str s => rw [hv] at hlist; exact absurd hlist (by simp [isListVal])
      | dict kvs2 => rw [hv] at hlist; exact absurd hlist (by simp [isListVal])

theorem processBlocks_ok (bs : List PyData) :
    wellShapedDocs bs = true → ∀ acc, ∃ s, processBlocks bs acc = .ok s := by
  induction bs with
  | nil =>
    intro _ acc
    exact ⟨acc, rfl⟩
  | cons blk bs ih =>
    intro hws acc
    simp only [wellShapedDocs, List.all_cons, Bool.and_eq_true] at hws
    obtain ⟨hblk, hbs⟩ := hws
    cases blk with
    | dict kvs =>
      obtain ⟨s, hs⟩ := processBlock_dict_ok acc kvs hblk
      obtain ⟨s2, hs2⟩ := ih hbs s
      exact ⟨s2, by simp only [processBlocks, hs]; exact hs2⟩
    | null => exact absurd hblk (by simp)
    | bool b => exact absurd hblk (by simp)
    | num n => exact absurd hblk (by simp)
    | str st => exact absurd hblk (by simp)
    | list xs => exact absurd hblk (by simp)

/-! ## The claims -/

/-- Claim C1: any path whose separator-normalized form contains a
configured denylisted path segment is skipped by `should_skip`, and a
file at such a path contributes nothing to the declared, used, or
override accumulators, even when its extension is recognized. -/
theorem claim1 (path : String) (f : TfFile) (g : TfvarsFile)
    (fs : List TfFile) (gs : List TfvarsFile)
    (acc : Finset String × Finset String) (keys : Finset String)
    (hdir : ∃ pat ∈ IGNORE_DIR_PATTERNS,
      containsSub (normalizePath path).data pat.data = true)
    (hf : f.path = path) (hg : g.path = path) :
    should_skip path = true ∧
    collectTf (f :: fs) acc = collectTf fs acc ∧
    collectTfvars (g :: gs) keys = collectTfvars gs keys := by
  have hany : hitsIgnoredDir (normalizePath path) = true := by
    unfold hitsIgnoredDir
    rw [List.any_eq_true]
    exact hdir
  have hskip : should_skip path = true := by
    unfold should_skip
    simp only
    split <;> simp [hany]
  exact ⟨hskip, collectTf_skip f fs acc (hf ▸ hskip),
    collectTfvars_skip g gs keys (hg ▸ hskip)⟩

/-- Claim C2: in every completed run the three drift categories equal
exactly the sorted set differences of the accumulated declared, used,
override-key and ignore sets, and each is emitted sorted. -/
theorem claim2 (tf : List TfFile) (a b : List TfvarsFile)
    (ign : Option (List String)) (r : DriftResult)
    (h : mainRun tf a b ign = .ok r) :
    r.unused = sortedSymbols ((r.declared \ r.used) \ r.ignore) ∧
    r.missing = sortedSymbols ((r.used \ r.declared) \ r.ignore) ∧
    r.tfvarsExtra = sortedSymbols ((r.tfvarsKeys \ r.declared) \ r.ignore) ∧
    r.unused.Sorted (· ≤ ·) ∧ r.missing.Sorted (· ≤ ·) ∧
    r.tfvarsExtra.Sorted (· ≤ ·) := by
  obtain ⟨_, _, _, h1, h2, h3, _⟩ := mainRun_spec tf a b ign r h
  refine ⟨h1, h2, h3, ?_, ?_, ?_⟩
  · rw [h1]
    exact sortedSymbols_sorted _
  · rw [h2]
    exact sortedSymbols_sorted _
  · rw [h3]
    exact sortedSymbols_sorted _

/-- Claim C3: for a completed run the exit status is 0 iff all three
drift categories are empty and 1 iff at least one is non-empty; exit
status 2 arises exactly when the parser dependency is unavailable at
startup (so never from a run of `main`). -/
theorem claim3 (hcl : Bool) (tf : List TfFile) (a b : List TfvarsFile)
    (ign : Option (List String)) (r : DriftResult)
    (h : mainRun tf a b ign = .ok r) :
    (hcl = false → programRun hcl tf a b ign = .ok 2) ∧
    (hcl = true →
      programRun hcl tf a b ign = .ok r.exitCode ∧
      r.exitCode ≠ 2 ∧
      (r.exitCode = 0 ↔
        r.unused = [] ∧ r.missing = [] ∧ r.tfvarsExtra = []) ∧
      (r.exitCode = 1 ↔
        ¬(r.unused = [] ∧ r.missing = [] ∧ r.tfvarsExtra = []))) := by
  obtain ⟨_, _, _, _, _, _, hcode⟩ := mainRun_spec tf a b ign r h
  have hempty : (r.unused.isEmpty && r.missing.isEmpty &&
      r.tfvarsExtra.isEmpty) = true ↔
      (r.unused = [] ∧ r.missing = [] ∧ r.tfvarsExtra = []) := by
    simp [List.isEmpty_iff, and_assoc]
  constructor
  · intro hh
    subst hh
    rfl
  · intro hh
    subst hh
    refine ⟨by simp [programRun, h], ?_, ?_, ?_⟩
    · rw [hcode]
      split <;> omega
    · rw [hcode]
      by_cases hcond : (r.unused.isEmpty && r.missing.isEmpty &&
          r.tfvarsExtra.isEmpty) = true
      · rw [if_pos hcond]
        simp [hempty.mp hcond]
      · rw [if_neg hcond]
        constructor
        · intro h10
          exact absurd h10 one_ne_zero
        · intro hc
          exact absurd (hempty.mpr hc) hcond
    · rw [hcode]
      by_cases hcond : (r.unused.isEmpty && r.missing.isEmpty &&
          r.tfvarsExtra.isEmpty) = true
      · rw [if_pos hcond]
        simp [hempty.mp hcond]
      · rw [if_neg hcond]
        constructor
        · intro _ hc
          exact hcond (hempty.mpr hc)
        · intro _
          rfl

/-- Claim C4: a symbol in the run's loaded ignore set never appears in
any of the three drift categories. -/
theorem claim4 (tf : List TfFile) (a b : List TfvarsFile)
    (ign : Option (List String)) (r : DriftResult) (s : String)
    (h : mainRun tf a b ign = .ok r) (hs : s ∈ r.ignore) :
    s ∉ r.unused ∧ s ∉ r.missing ∧ s ∉ r.tfvarsExtra := by
  obtain ⟨_, _, _, h1, h2, h3, _⟩ := mainRun_spec tf a b ign r h
  refine ⟨?_, ?_, ?_⟩
  · rw [h1]
    intro hmem
    rw [mem_sortedSymbols] at hmem
    exact (Finset.mem_sdiff.mp hmem).2 hs
  · rw [h2]
    intro hmem
    rw [mem_sortedSymbols] at hmem
    exact (Finset.mem_sdiff.mp hmem).2 hs
  · rw [h3]
    intro hmem
    rw [mem_sortedSymbols] at hmem
    exact (Finset.mem_sdiff.mp hmem).2 hs

/-- Claim C8: `should_skip` is a total function of the path string,
and its first rule — checked before the denylist rule — skips every
path whose normalized form ends in none of the recognized extensions,
whatever the file's content. -/
theorem claim8 (path : String)
    (hext : ∀ e ∈ IGNORE_FILE_EXTS,
      isSuffixB e.data (normalizePath path).data = false) :
    should_skip path = true := by
  have hrec : extRecognized (normalizePath path) = false := by
    unfold extRecognized
    rw [List.any_eq_false]
    intro e he
    simp [hext e he]
  unfold should_skip
  simp only
  rw [hrec]
  rfl

/-- Claim C9: the accumulators grow only by union: a completed prefix
of the `.tf` loop yields supersets of its starting sets, the tfvars
loop always yields a superset of its starting set, and processing more
files factors through the earlier result, so no earlier file's
contribution is ever removed before the drift computation. -/
theorem claim9 (fs gs : List TfFile) (ts us : List TfvarsFile)
    (d u d2 u2 : Finset String) (keys : Finset String)
    (h : collectTf fs (d, u) = .ok (d2, u2)) :
    (d ⊆ d2 ∧ u ⊆ u2) ∧
    keys ⊆ collectTfvars ts keys ∧
    collectTf (fs ++ gs) (d, u) = collectTf gs (d2, u2) ∧
    collectTfvars (ts ++ us) keys =
      collectTfvars us (collectTfvars ts keys) := by
  exact ⟨collectTf_mono fs d u d2 u2 h, collectTfvars_mono ts keys,
    collectTf_append fs gs (d, u) (d2, u2) h, collectTfvars_append ts us keys⟩

/-- Claim C5: when the structured parse raises, the declaration
extractor returns the regex-fallback capture set without raising;
every fallback capture comes from a `variable "<ident>" {` header
in the raw text; and a file where both the structured and fallback
passes find nothing yields the empty set, not an error. -/
theorem claim5 (e : String) (txt txt2 : String) (s : String)
    (data : PyData) (hs : s ∈ fallbackDeclared txt)
    (h2 : fallbackDeclared txt2 = ∅)
    (hd : structuredBranch data = .ok ∅) :
    parse_declared_vars_from_tf (.error e) txt = .ok (fallbackDeclared txt) ∧
    (s.data ≠ [] ∧ (∀ c ∈ s.data, isIdent c = true) ∧
      ∃ pre sp sp2 post,
        txt.data = pre ++ 'v' :: 'a' :: 'r' :: 'i' :: 'a' :: 'b' :: 'l' ::
          'e' :: (sp ++ '"' :: (s.data ++ '"' :: (sp2 ++ '{' :: post))) ∧
        sp ≠ [] ∧ (∀ c ∈ sp, isSpace c = true) ∧
        (∀ c ∈ sp2, isSpace c = true)) ∧
    parse_declared_vars_from_tf (.error e) txt2 = .ok ∅ ∧
    parse_declared_vars_from_tf (.ok data) txt2 = .ok ∅ := by
  refine ⟨rfl, ?_, by simp [parse_declared_vars_from_tf, h2],
    by simp [parse_declared_vars_from_tf, hd]⟩
  rw [fallbackDeclared, List.mem_toFinset, List.mem_map] at hs
  obtain ⟨n, hnmem, hmk⟩ := hs
  subst hmk
  exact scanVarDecls_sound txt.data n hnmem

/-- Claim C6: the override extractor returns the top-level keys of a
JSON-shaped file whose content parses to an object and the empty set
otherwise (parse failure or non-object top level), never raising; for
a non-JSON file it returns the keys of a single top-level mapping and
the empty set otherwise. -/
theorem claim6 (pj ph : String) (kvs kvs2 : List (String × PyData))
    (jbad hbad anyA anyB : Except String PyData)
    (hpj : isSuffixB ".json".data pj.data = true)
    (hph : isSuffixB ".json".data ph.data = false)
    (hjb : ∀ kv : List (String × PyData), jbad ≠ .ok (.dict kv))
    (hhb : ∀ kv : List (String × PyData), hbad ≠ .ok (.dict kv)) :
    parse_tfvars pj (.ok (.dict kvs)) anyA = (kvs.map Prod.fst).toFinset ∧
    parse_tfvars pj jbad anyA = ∅ ∧
    parse_tfvars ph anyB (.ok (.dict kvs2)) = (kvs2.map Prod.fst).toFinset ∧
    parse_tfvars ph anyB hbad = ∅ := by
  refine ⟨by simp [parse_tfvars, hpj], ?_, by simp [parse_tfvars, hph], ?_⟩
  · cases jbad with
    | error e2 => simp [parse_tfvars, hpj]
    | ok v =>
      cases v with
      | dict kv => exact absurd rfl (hjb kv)
      | null => simp [parse_tfvars, hpj]
      | bool b2 => simp [parse_tfvars, hpj]
      | num n2 => simp [parse_tfvars, hpj]
      | str s2 => simp [parse_tfvars, hpj]
      | list xs => simp [parse_tfvars, hpj]
  · cases hbad with
    | error e2 => simp [parse_tfvars, hph]
    | ok v =>
      cases v with
      | dict kv => exact absurd rfl (hhb kv)
      | null => simp [parse_tfvars, hph]
      | bool b2 => simp [parse_tfvars, hph]
      | num n2 => simp [parse_tfvars, hph]
      | str s2 => simp [parse_tfvars, hph]
      | list xs => simp [parse_tfvars, hph]

/-- Claim C7: every identifier returned by the reference extractor is
a nonempty run of identifier characters occurring right after `var.`
at a position preceded by the start of text or by a non-identifier
character, so the matches are exactly the boundary-guarded
`var.<ident>` occurrences; in particular `myvar.x` contributes
nothing. -/
theorem claim7 (txt s : String) (hs : s ∈ parse_used_vars_from_tf txt) :
    (s.data ≠ [] ∧ (∀ c ∈ s.data, isIdent c = true) ∧
      ∃ pre post,
        txt.data = pre ++ ('v' :: 'a' :: 'r' :: '.' :: (s.data ++ post)) ∧
        (pre = [] ∨ ∃ d pre2, pre = pre2 ++ [d] ∧ isIdent d = false)) ∧
    parse_used_vars_from_tf "myvar.x" = ∅ := by
  constructor
  · rw [parse_used_vars_from_tf, List.mem_toFinset, List.mem_map] at hs
    obtain ⟨n, hnmem, hmk⟩ := hs
    subst hmk
    obtain ⟨hne, hid, pre, post, hdec, hbnd⟩ :=
      scanVarRefs_sound false txt.data n hnmem
    refine ⟨hne, hid, pre, post, hdec, ?_⟩
    rcases hbnd with ⟨hpre, _⟩ | hb
    · exact Or.inl hpre
    · exact Or.inr hb
  · have h0 : scanVarRefs false "myvar.x".data = [] := by
      simp +decide [scanVarRefs, isIdent, Char.isAlphanum, Char.isAlpha,
        Char.isDigit, Char.isUpper, Char.isLower]
    rw [parse_used_vars_from_tf, h0]
    rfl

/-- Claim C10 counterexample: a successfully parsed document whose
top-level sequence contains a non-iterable entry (here the number 0)
makes the structured branch raise a TypeError that is not caught, so
the branch is not total over arbitrary parse-result shapes. -/
theorem claim10_counterexample :
    parse_declared_vars_from_tf (.ok (.list [.num 0])) "" =
      .error "TypeError: argument is not iterable" := rfl

/-- Claim C10 (amended): a parsed document that is neither a mapping
nor a sequence yields the empty set; non-mapping entries inside a
`variable` block list are skipped without raising, whatever their
shape; and for parse results of the shapes the structured parser
actually produces — a mapping, or a sequence of mappings, whose
`variable` entries are lists — the structured branch never raises (a
successful parse then never triggers the lexical fallback). -/
theorem claim10 (data : PyData) (entries : List PyData)
    (docs : List PyData) (kvs : List (String × PyData))
    (hdata : isScalarDoc data = true) (hdocs : wellShapedDocs docs = true)
    (hkvs : wellShapedDict kvs = true) :
    structuredBranch data = .ok ∅ ∧
    structuredBranch (.dict [("variable", .list entries)]) =
      .ok (entries.foldl (fun acc entry => acc ∪ entryKeys entry) ∅) ∧
    (∃ s, structuredBranch (.list docs) = .ok s) ∧
    (∃ s, structuredBranch (.dict kvs) = .ok s) := by
  refine ⟨?_, ?_, ?_, ?_⟩
  · cases data with
    | dict kv => exact absurd hdata (by simp [isScalarDoc])
    | list xs => exact absurd hdata (by simp [isScalarDoc])
    | null => rfl
    | bool b => rfl
    | num n => rfl
    | str st => rfl
  · rfl
  · exact processBlocks_ok docs hdocs ∅
  · exact processBlocks_ok [.dict kvs] (by simp [wellShapedDocs, hkvs]) ∅

/-! ## Concrete witnesses for the claims with hypotheses -/

/-- Witness for claim C1 at the path `modules/vendor/main.tf`. -/
theorem claim1_witness :
    should_skip "modules/vendor/main.tf" = true ∧
    collectTf
      ({ path := "modules/vendor/main.tf", parseRes := Except.error "boom",
         text := "" } :: []) (∅, ∅) = collectTf [] (∅, ∅) ∧
    collectTfvars
      ({ path := "modules/vendor/main.tf", jsonRes := Except.error "e",
         hclRes := Except.error "e" } :: []) ∅ = collectTfvars [] ∅ :=
  claim1 "modules/vendor/main.tf"
    { path := "modules/vendor/main.tf", parseRes := Except.error "boom",
      text := "" }
    { path := "modules/vendor/main.tf", jsonRes := Except.error "e",
      hclRes := Except.error "e" }
    [] [] (∅, ∅) ∅ (by decide) rfl rfl

/-- Witness for claim C2 on a one-file run: declared `a`, used `b`,
ignore `c`. -/
theorem claim2_witness :
    (["a"] : List String) =
      sortedSymbols ((({"a"} : Finset String) \ {"b"}) \ {"c"}) ∧
    (["b"] : List String) =
      sortedSymbols ((({"b"} : Finset String) \ {"a"}) \ {"c"}) ∧
    ([] : List String) =
      sortedSymbols (((∅ : Finset String) \ {"a"}) \ {"c"}) ∧
    (["a"] : List String).Sorted (· ≤ ·) ∧
    (["b"] : List String).Sorted (· ≤ ·) ∧
    ([] : List String).Sorted (· ≤ ·) :=
  claim2
    [{ path := "main.tf", parseRes := Except.error "boom",
       text := "variable \x22a\x22 \x7b x = var.b" }] [] []
    (Option.some ["c"]) ⟨{"a"}, {"b"}, ∅, {"c"}, ["a"], ["b"], [], 1⟩
    (by decide)

/-- Witness for claim C3: the same run exits 1 (it has drift), and a
missing parser dependency exits 2. -/
theorem claim3_witness :
    programRun false
      [{ path := "main.tf", parseRes := Except.error "boom",
         text := "variable \x22a\x22 \x7b x = var.b" }] [] []
      (Option.some ["c"]) = .ok 2 ∧
    (programRun true
      [{ path := "main.tf", parseRes := Except.error "boom",
         text := "variable \x22a\x22 \x7b x = var.b" }] [] []
      (Option.some ["c"]) = .ok 1 ∧
      (1 : Nat) ≠ 2 ∧
      ((1 : Nat) = 0 ↔ (["a"] : List String) = [] ∧
        (["b"] : List String) = [] ∧ ([] : List String) = []) ∧
      ((1 : Nat) = 1 ↔ ¬((["a"] : List String) = [] ∧
        (["b"] : List String) = [] ∧ ([] : List String) = []))) :=
  ⟨(claim3 false
      [{ path := "main.tf", parseRes := Except.error "boom",
         text := "variable \x22a\x22 \x7b x = var.b" }] [] []
      (Option.some ["c"]) ⟨{"a"}, {"b"}, ∅, {"c"}, ["a"], ["b"], [], 1⟩
      (by decide)).1 rfl,
   (claim3 true
      [{ path := "main.tf", parseRes := Except.error "boom",
         text := "variable \x22a\x22 \x7b x = var.b" }] [] []
      (Option.some ["c"]) ⟨{"a"}, {"b"}, ∅, {"c"}, ["a"], ["b"], [], 1⟩
      (by decide)).2 rfl⟩

/-- Witness for claim C4 on a run whose ignore list holds `env`: the
ignored name is in none of the three categories even though the
override file supplies it. -/
theorem claim4_witness :
    "env" ∉ ([] : List String) ∧ "env" ∉ ([] : List String) ∧
    "env" ∉ (["extra_flag"] : List String) :=
  claim4 []
    [{ path := "vars.tfvars.json",
       jsonRes := Except.ok (.dict [("extra_flag", .num 1), ("env", .null)]),
       hclRes := Except.error "na" }] []
    (Option.some [" env ", "# note", "", "ignored_one"])
    ⟨∅, ∅, {"extra_flag", "env"}, {"env", "ignored_one"}, [], [],
      ["extra_flag"], 1⟩
    "env" (by decide) (by decide)

/-- Witness for claim C5: on a parse failure over
`variable "r" \x7b`, the fallback captures `r`; on empty text both
passes find nothing and the extractor returns the empty set. -/
theorem claim5_witness :
    parse_declared_vars_from_tf (.error "boom") "variable \x22r\x22 \x7b" =
      .ok (fallbackDeclared "variable \x22r\x22 \x7b") ∧
    (("r" : String).data ≠ [] ∧
      (∀ c ∈ ("r" : String).data, isIdent c = true) ∧
      ∃ pre sp sp2 post,
        ("variable \x22r\x22 \x7b" : String).data =
          pre ++ 'v' :: 'a' :: 'r' :: 'i' :: 'a' :: 'b' :: 'l' :: 'e' ::
            (sp ++ '"' :: (("r" : String).data ++ '"' ::
              (sp2 ++ '\x7b' :: post))) ∧
        sp ≠ [] ∧ (∀ c ∈ sp, isSpace c = true) ∧
        (∀ c ∈ sp2, isSpace c = true)) ∧
    parse_declared_vars_from_tf (.error "boom") "" = .ok ∅ ∧
    parse_declared_vars_from_tf (.ok (.dict [])) "" = .ok ∅ :=
  claim5 "boom" "variable \x22r\x22 \x7b" "" "r" (.dict [])
    (by decide) (by decide) rfl

/-- Witness for claim C6 on an override key `k` (JSON branch) and `m`
(hcl branch), with failing parses yielding the empty set. -/
theorem claim6_witness :
    parse_tfvars "x.tfvars.json" (.ok (.dict [("k", PyData.null)]))
      (.error "na") = ([("k", PyData.null)].map Prod.fst).toFinset ∧
    parse_tfvars "x.tfvars.json" (.error "bad json") (.error "na") = ∅ ∧
    parse_tfvars "x.tfvars" (.error "na")
      (.ok (.dict [("m", PyData.null)])) =
      ([("m", PyData.null)].map Prod.fst).toFinset ∧
    parse_tfvars "x.tfvars" (.error "na") (.error "bad hcl") = ∅ :=
  claim6 "x.tfvars.json" "x.tfvars" [("k", PyData.null)]
    [("m", PyData.null)] (.error "bad json") (.error "bad hcl")
    (.error "na") (.error "na") (by decide) (by decide)
    (fun _ h => Except.noConfusion h) (fun _ h => Except.noConfusion h)

/-- Witness for claim C7: the reference `var.region` in
`a = var.region` is captured with its boundary decomposition. -/
theorem claim7_witness :
    (("region" : String).data ≠ [] ∧
      (∀ c ∈ ("region" : String).data, isIdent c = true) ∧
      ∃ pre post,
        ("a = var.region" : String).data =
          pre ++ ('v' :: 'a' :: 'r' :: '.' :: (("region" : String).data ++
            post)) ∧
        (pre = [] ∨ ∃ d pre2, pre = pre2 ++ [d] ∧ isIdent d = false)) ∧
    parse_used_vars_from_tf "myvar.x" = ∅ :=
  claim7 "a = var.region" "region" (by decide)

/-- Witness for claim C8 at a path with an unrecognized extension. -/
theorem claim8_witness : should_skip "README.md" = true :=
  claim8 "README.md" (by decide)

/-- Witness for claim C9: a skipped file leaves the accumulators
unchanged, the tfvars loop extends `seed`, and appending factors. -/
theorem claim9_witness :
    ((∅ : Finset String) ⊆ ∅ ∧ (∅ : Finset String) ⊆ ∅) ∧
    ({"seed"} : Finset String) ⊆
      collectTfvars
        [{ path := "vars.tfvars.json",
           jsonRes := Except.ok (.dict [("k", PyData.null)]),
           hclRes := Except.error "na" }] {"seed"} ∧
    collectTf
      ([{ path := "a/vendor/b.tf", parseRes := Except.error "boom",
          text := "" }] ++ []) (∅, ∅) = collectTf [] (∅, ∅) ∧
    collectTfvars
      ([{ path := "vars.tfvars.json",
          jsonRes := Except.ok (.dict [("k", PyData.null)]),
          hclRes := Except.error "na" }] ++ []) {"seed"} =
      collectTfvars []
        (collectTfvars
          [{ path := "vars.tfvars.json",
             jsonRes := Except.ok (.dict [("k", PyData.null)]),
             hclRes := Except.error "na" }] {"seed"}) :=
  claim9
    [{ path := "a/vendor/b.tf", parseRes := Except.error "boom", text := "" }]
    []
    [{ path := "vars.tfvars.json",
       jsonRes := Except.ok (.dict [("k", PyData.null)]),
       hclRes := Except.error "na" }]
    [] ∅ ∅ ∅ ∅ {"seed"} (by decide)

/-- Witness for claim C10 (amended): a scalar document, a `variable`
list with a numeric entry, and well-shaped documents. -/
theorem claim10_witness :
    structuredBranch (.str "x") = .ok ∅ ∧
    structuredBranch
      (.dict [("variable", .list [.num 7, .dict [("region", PyData.null)]])]) =
      .ok ([PyData.num 7, .dict [("region", PyData.null)]].foldl
        (fun acc entry => acc ∪ entryKeys entry) ∅) ∧
    (∃ s, structuredBranch (.list [.dict [("variable", .list [])]]) = .ok s) ∧
    (∃ s, structuredBranch
      (.dict [("variable", .list [.dict [("a", PyData.null)]])]) = .ok s) :=
  claim10 (.str "x") [.num 7, .dict [("region", PyData.null)]]
    [.dict [("variable", .list [])]]
    [("variable", .list [.dict [("a", PyData.null)]])]
    rfl (by decide) (by decide)

end TfDrift
